import Mathlib

/-!
Shallow embedding of `src/common.c`: maze-grid utilities `is_in_range`,
`get_neighbor` and `initialize_maze` over a 2D array of `maze_room` structs,
together with proofs of the specified properties.

C machine integers are modelled as `Int` (the functions only compare and
offset coordinates by one, so no overflow is in scope for rooms of a grid);
the caller-allocated 2D array `maze[num_rows][num_cols]` is modelled as a
total map from coordinates to rooms, and a store `maze[i][j] = r` as a
pointwise functional update.
-/

/-- The `Direction` enum of the repository: the four cardinal directions. -/
inductive Direction : Type
  | NORTH : Direction
  | SOUTH : Direction
  | WEST : Direction
  | EAST : Direction
  deriving DecidableEq, Repr

export Direction (NORTH SOUTH WEST EAST)

/-- The `struct maze_room` of the repository: coordinates, the four wall
slots (one per direction: an `int walls[4]` array, modelled as a 4-tuple),
and the visited flag (a C `int` used as 0/1). -/
structure maze_room : Type where
  row : Int
  col : Int
  walls : Int × Int × Int × Int
  visited : Int
  deriving DecidableEq, Repr

/-- The caller-allocated 2D array of rooms, as a total map from (row, col)
coordinates to room values. -/
def Grid : Type := Int → Int → maze_room

/-- The store `maze[i][j] = r`: a pointwise functional update of the array. -/
def writeRoom (maze : Grid) (i j : Int) (r : maze_room) : Grid :=
  fun i' j' => if i' = i ∧ j' = j then r else maze i' j'

/-- `is_in_range` from `src/common.c`: returns 0 if the room at
`[row][col]` is not inside a `num_rows × num_cols` maze, 1 if it is. -/
def is_in_range (row col num_rows num_cols : Int) : Int :=
  if row ≥ num_rows ∨ row < 0 ∨ col ≥ num_cols ∨ col < 0 then 0 else 1

/-- `get_neighbor` from `src/common.c`: offset the room's coordinates one
step in the given direction, return a reference to the room there if in
range and NULL (here `none`) otherwise.  The C `if`/`else if` chain sends
any direction other than NORTH, SOUTH, WEST to the EAST branch. -/
def get_neighbor (num_rows num_cols : Int) (maze : Grid)
    (room : maze_room) (dir : Direction) : Option maze_room :=
  if dir = NORTH then
    if is_in_range (room.row - 1) room.col num_rows num_cols = 1 then
      some (maze (room.row - 1) room.col)
    else none
  else if dir = SOUTH then
    if is_in_range (room.row + 1) room.col num_rows num_cols = 1 then
      some (maze (room.row + 1) room.col)
    else none
  else if dir = WEST then
    if is_in_range room.row (room.col - 1) num_rows num_cols = 1 then
      some (maze room.row (room.col - 1))
    else none
  else
    if is_in_range room.row (room.col + 1) num_rows num_cols = 1 then
      some (maze room.row (room.col + 1))
    else none

/-- A state-passing rendering of `get_neighbor`'s body: every return site of
the C function hands back the array, the current room and the result.  The
body contains no store, so each site returns the array and room it was
given. -/
def get_neighbor_st (num_rows num_cols : Int) (maze : Grid)
    (room : maze_room) (dir : Direction) :
    Grid × maze_room × Option maze_room :=
  if dir = NORTH then
    if is_in_range (room.row - 1) room.col num_rows num_cols = 1 then
      (maze, room, some (maze (room.row - 1) room.col))
    else (maze, room, none)
  else if dir = SOUTH then
    if is_in_range (room.row + 1) room.col num_rows num_cols = 1 then
      (maze, room, some (maze (room.row + 1) room.col))
    else (maze, room, none)
  else if dir = WEST then
    if is_in_range room.row (room.col - 1) num_rows num_cols = 1 then
      (maze, room, some (maze room.row (room.col - 1)))
    else (maze, room, none)
  else
    if is_in_range room.row (room.col + 1) num_rows num_cols = 1 then
      (maze, room, some (maze room.row (room.col + 1)))
    else (maze, room, none)

/-- The room value written by `initialize_maze` at cell `(i, j)`:
`{.row = i, .col = j, .walls = {-1, -1, -1, -1}, .visited = 0}`. -/
def initRoom (i j : Int) : maze_room :=
  { row := i, col := j, walls := (-1, -1, -1, -1), visited := 0 }

/-- The inner `for (int j = 0; j < num_cols; j++)` loop of `initialize_maze`
for row `i`: store `initRoom i j` at `maze[i][j]` for each `j`, in ascending
order.  A C loop `for (int j = 0; j < n; j++)` performs exactly `n.toNat`
iterations (none when `n ≤ 0`). -/
def init_row (num_cols : Int) (i : Nat) (g : Grid) : Grid :=
  (List.range num_cols.toNat).foldl
    (fun g2 (j : Nat) => writeRoom g2 (i : Int) (j : Int)
      (initRoom (i : Int) (j : Int)))
    g

/-- `initialize_maze` from `src/common.c`: the row-major double `for` loop
`for i in [0, num_rows) for j in [0, num_cols)` storing
`{.row = i, .col = j, .walls = {-1,-1,-1,-1}, .visited = 0}` at
`maze[i][j]`. -/
def initialize_maze (num_rows num_cols : Int) (maze : Grid) : Grid :=
  (List.range num_rows.toNat).foldl (fun g i => init_row num_cols i g) maze

/-- The coordinate offset the spec prescribes for each direction:
North → row-1, South → row+1, West → col-1, East → col+1. -/
def spec_offset (row col : Int) : Direction → Int × Int
  | NORTH => (row - 1, col)
  | SOUTH => (row + 1, col)
  | WEST => (row, col - 1)
  | EAST => (row, col + 1)

/-- The inverse of a direction, as the spec's round-trip pairs name it:
NORTH ↔ SOUTH and WEST ↔ EAST. -/
def spec_inverse : Direction → Direction
  | NORTH => SOUTH
  | SOUTH => NORTH
  | WEST => EAST
  | EAST => WEST

/-- A grid records its own positions when every in-range cell holds a room
whose stored coordinates equal its array position. -/
def rooms_consistent (num_rows num_cols : Int) (maze : Grid) : Prop :=
  ∀ i j : Int, 0 ≤ i → i < num_rows → 0 ≤ j → j < num_cols →
    (maze i j).row = i ∧ (maze i j).col = j

/-- An arbitrary pre-initialization array content (C leaves it unspecified). -/
def baseGrid : Grid :=
  fun _ _ => { row := 7, col := 7, walls := (7, 7, 7, 7), visited := 7 }

/-- An initialized 3×3 grid, for the spec's concrete scenarios. -/
def grid3 : Grid := initialize_maze 3 3 baseGrid

/-- An initialized 1×1 grid, for the spec's concrete scenarios. -/
def grid1 : Grid := initialize_maze 1 1 baseGrid

/-- The inner `for (int j = 0; j < num_cols; j++)` loop of `initialize_maze`,
rendered literally as a guarded small-step loop on the `int` counter `j`, with
a fuel bound so that non-termination would be observable as `none`. -/
def init_inner_loop (i num_cols : Int) : Int → Grid → Nat → Option Grid
  | _, _, 0 => none
  | j, maze, fuel + 1 =>
    if j < num_cols then
      init_inner_loop i num_cols (j + 1) (writeRoom maze i j (initRoom i j)) fuel
    else some maze

/-- The outer `for (int i = 0; i < num_rows; i++)` loop of `initialize_maze`,
rendered literally as a guarded small-step loop on the `int` counter `i`, the
body running the inner loop from `j = 0`; fuel makes non-termination
observable as `none`. -/
def init_outer_loop (num_rows num_cols : Int) : Int → Grid → Nat → Option Grid
  | _, _, 0 => none
  | i, maze, fuel + 1 =>
    if i < num_rows then
      match init_inner_loop i num_cols 0 maze (num_cols.toNat + 1) with
      | none => none
      | some maze2 => init_outer_loop num_rows num_cols (i + 1) maze2 fuel
    else some maze

/-! ## Helper lemmas -/

/-- `is_in_range` returns 1 exactly on in-range coordinates. -/
lemma is_in_range_eq_one (row col num_rows num_cols : Int) :
    is_in_range row col num_rows num_cols = 1 ↔
      0 ≤ row ∧ row < num_rows ∧ 0 ≤ col ∧ col < num_cols := by
  unfold is_in_range
  split <;> omega

/-- Pointwise effect of the inner initialization loop over `j ∈ [0, n)`. -/
lemma init_row_fold_apply (i : Nat) (g : Grid) (n : Nat) (r c : Int) :
    ((List.range n).foldl
        (fun g2 (j : Nat) => writeRoom g2 (i : Int) (j : Int)
          (initRoom (i : Int) (j : Int))) g) r c =
      if r = (i : Int) ∧ 0 ≤ c ∧ c < (n : Int) then initRoom r c
      else g r c := by
  induction n with
  | zero =>
    simp only [List.range_zero, List.foldl_nil]
    rw [if_neg (by omega)]
  | succ n ih =>
    rw [List.range_succ, List.foldl_append, List.foldl_cons, List.foldl_nil]
    simp only [writeRoom]
    rw [ih]
    by_cases h1 : r = (i : Int) ∧ c = (n : Int)
    · obtain ⟨ha, hb⟩ := h1
      subst ha; subst hb
      rw [if_pos ⟨rfl, rfl⟩, if_pos ⟨rfl, by omega, by omega⟩]
    · rw [if_neg h1]
      by_cases h2 : r = (i : Int) ∧ 0 ≤ c ∧ c < (n : Int)
      · rw [if_pos h2, if_pos ⟨h2.1, h2.2.1, by omega⟩]
      · rw [if_neg h2, if_neg (by omega)]

/-- Pointwise effect of one row's initialization. -/
lemma init_row_apply (C : Int) (i : Nat) (g : Grid) (r c : Int) :
    init_row C i g r c =
      if r = (i : Int) ∧ 0 ≤ c ∧ c < (C.toNat : Int) then initRoom r c
      else g r c :=
  init_row_fold_apply i g C.toNat r c

/-- Pointwise effect of the outer initialization loop over rows `[0, m)`. -/
lemma init_rows_fold_apply (C : Int) (g : Grid) (m : Nat) (r c : Int) :
    ((List.range m).foldl (fun g2 i => init_row C i g2) g) r c =
      if 0 ≤ r ∧ r < (m : Int) ∧ 0 ≤ c ∧ c < (C.toNat : Int)
      then initRoom r c else g r c := by
  induction m with
  | zero =>
    simp only [List.range_zero, List.foldl_nil]
    rw [if_neg (by omega)]
  | succ m ih =>
    rw [List.range_succ, List.foldl_append, List.foldl_cons, List.foldl_nil]
    rw [init_row_apply, ih]
    by_cases h1 : r = (m : Int) ∧ 0 ≤ c ∧ c < (C.toNat : Int)
    · rw [if_pos h1, if_pos ⟨by omega, by omega, h1.2.1, h1.2.2⟩]
    · rw [if_neg h1]
      by_cases h2 : 0 ≤ r ∧ r < (m : Int) ∧ 0 ≤ c ∧ c < (C.toNat : Int)
      · rw [if_pos h2, if_pos ⟨h2.1, by omega, h2.2.2⟩]
      · rw [if_neg h2, if_neg (by omega)]

/-- Pointwise characterization of `initialize_maze`. -/
lemma initialize_maze_apply (R C : Int) (g : Grid) (r c : Int) :
    initialize_maze R C g r c =
      if 0 ≤ r ∧ r < (R.toNat : Int) ∧ 0 ≤ c ∧ c < (C.toNat : Int)
      then initRoom r c else g r c :=
  init_rows_fold_apply C g R.toNat r c

/-- An initialized grid records its own positions. -/
lemma initialize_maze_consistent (R C : Int) (g : Grid) :
    rooms_consistent R C (initialize_maze R C g) := by
  intro i j h0 h1 h2 h3
  have hcond : 0 ≤ i ∧ i < (R.toNat : Int) ∧ 0 ≤ j ∧ j < (C.toNat : Int) := by
    omega
  rw [initialize_maze_apply, if_pos hcond]
  exact ⟨rfl, rfl⟩

/-- The NORTH branch of `get_neighbor`'s `if`/`else if` chain. -/
lemma get_neighbor_north (R C : Int) (maze : Grid) (room : maze_room) :
    get_neighbor R C maze room NORTH =
      if is_in_range (room.row - 1) room.col R C = 1 then
        some (maze (room.row - 1) room.col)
      else none := rfl

/-- The SOUTH branch of `get_neighbor`'s `if`/`else if` chain. -/
lemma get_neighbor_south (R C : Int) (maze : Grid) (room : maze_room) :
    get_neighbor R C maze room SOUTH =
      if is_in_range (room.row + 1) room.col R C = 1 then
        some (maze (room.row + 1) room.col)
      else none := rfl

/-- The WEST branch of `get_neighbor`'s `if`/`else if` chain. -/
lemma get_neighbor_west (R C : Int) (maze : Grid) (room : maze_room) :
    get_neighbor R C maze room WEST =
      if is_in_range room.row (room.col - 1) R C = 1 then
        some (maze room.row (room.col - 1))
      else none := rfl

/-- The EAST (final `else`) branch of `get_neighbor`'s chain. -/
lemma get_neighbor_east (R C : Int) (maze : Grid) (room : maze_room) :
    get_neighbor R C maze room EAST =
      if is_in_range room.row (room.col + 1) R C = 1 then
        some (maze room.row (room.col + 1))
      else none := rfl

/-- The fueled inner loop terminates from any start index `j` once the fuel
exceeds the remaining iteration count, and its net effect writes exactly the
cells `(i, c)` with `j ≤ c < num_cols`. -/
lemma init_inner_loop_sound (i C : Int) (fuel : Nat) :
    ∀ (j : Int) (g : Grid), (C - j).toNat < fuel →
      ∃ g2, init_inner_loop i C j g fuel = some g2 ∧
        ∀ r c, g2 r c = if r = i ∧ j ≤ c ∧ c < C then initRoom i c else g r c := by
  induction fuel with
  | zero =>
    intro j g h
    exact absurd h (by omega)
  | succ fuel ih =>
    intro j g h
    simp only [init_inner_loop]
    by_cases hj : j < C
    · rw [if_pos hj]
      obtain ⟨g2, hg2, hpt⟩ :=
        ih (j + 1) (writeRoom g i j (initRoom i j)) (by omega)
      refine ⟨g2, hg2, fun r c => ?_⟩
      rw [hpt r c]
      simp only [writeRoom]
      by_cases h1 : r = i ∧ j + 1 ≤ c ∧ c < C
      · rw [if_pos h1, if_pos ⟨h1.1, by omega, h1.2.2⟩]
      · rw [if_neg h1]
        by_cases h2 : r = i ∧ c = j
        · rw [if_pos h2, if_pos ⟨h2.1, by omega, by omega⟩, h2.2]
        · rw [if_neg h2, if_neg (by omega)]
    · rw [if_neg hj]
      exact ⟨g, rfl, fun r c => by rw [if_neg (by omega)]⟩

/-- The fueled outer loop terminates from any start row `i` once the fuel
exceeds the remaining row count, and its net effect initializes exactly the
cells `(r, c)` with `i ≤ r < num_rows`, `0 ≤ c < num_cols`. -/
lemma init_outer_loop_sound (R C : Int) (fuel : Nat) :
    ∀ (i : Int) (g : Grid), (R - i).toNat < fuel →
      ∃ g2, init_outer_loop R C i g fuel = some g2 ∧
        ∀ r c, g2 r c =
          if i ≤ r ∧ r < R ∧ 0 ≤ c ∧ c < C then initRoom r c else g r c := by
  induction fuel with
  | zero =>
    intro i g h
    exact absurd h (by omega)
  | succ fuel ih =>
    intro i g h
    simp only [init_outer_loop]
    by_cases hi : i < R
    · rw [if_pos hi]
      obtain ⟨gin, hgin, hptin⟩ :=
        init_inner_loop_sound i C (C.toNat + 1) 0 g (by omega)
      rw [hgin]
      obtain ⟨g2, hg2, hpt⟩ := ih (i + 1) gin (by omega)
      refine ⟨g2, hg2, fun r c => ?_⟩
      rw [hpt r c]
      by_cases h1 : i + 1 ≤ r ∧ r < R ∧ 0 ≤ c ∧ c < C
      · rw [if_pos h1, if_pos ⟨by omega, h1.2⟩]
      · rw [if_neg h1, hptin r c]
        by_cases h2 : r = i ∧ 0 ≤ c ∧ c < C
        · rw [if_pos h2, if_pos ⟨by omega, by omega, h2.2⟩, h2.1]
        · rw [if_neg h2, if_neg (by omega)]
    · rw [if_neg hi]
      exact ⟨g, rfl, fun r c => by rw [if_neg (by omega)]⟩

/-! ## Claim theorems -/

/-- C1: for every grid whose rooms record their own positions, for every room
of that grid and every direction, `get_neighbor` returns `none` iff the
coordinate obtained by offsetting the room's (row, col) one step in the
direction lies outside `[0,R) × [0,C)`; otherwise it returns the room of the
grid at that offset coordinate. -/
theorem get_neighbor_correct (R C : Int) (maze : Grid)
    (hcons : rooms_consistent R C maze) (r c : Int)
    (hr0 : 0 ≤ r) (hrR : r < R) (hc0 : 0 ≤ c) (hcC : c < C) (dir : Direction) :
    (get_neighbor R C maze (maze r c) dir = none ↔
      ¬(0 ≤ (spec_offset r c dir).1 ∧ (spec_offset r c dir).1 < R ∧
        0 ≤ (spec_offset r c dir).2 ∧ (spec_offset r c dir).2 < C)) ∧
    ((0 ≤ (spec_offset r c dir).1 ∧ (spec_offset r c dir).1 < R ∧
        0 ≤ (spec_offset r c dir).2 ∧ (spec_offset r c dir).2 < C) →
      get_neighbor R C maze (maze r c) dir =
        some (maze (spec_offset r c dir).1 (spec_offset r c dir).2)) := by
  obtain ⟨hrow, hcol⟩ := hcons r c hr0 hrR hc0 hcC
  cases dir with
  | NORTH =>
    rw [get_neighbor_north, hrow, hcol]
    simp only [spec_offset, is_in_range_eq_one]
    by_cases hin : 0 ≤ r - 1 ∧ r - 1 < R ∧ 0 ≤ c ∧ c < C
    · rw [if_pos hin]
      exact ⟨iff_of_false (by simp) (not_not_intro hin), fun _ => rfl⟩
    · rw [if_neg hin]
      exact ⟨iff_of_true rfl hin, fun h2 => absurd h2 hin⟩
  | SOUTH =>
    rw [get_neighbor_south, hrow, hcol]
    simp only [spec_offset, is_in_range_eq_one]
    by_cases hin : 0 ≤ r + 1 ∧ r + 1 < R ∧ 0 ≤ c ∧ c < C
    · rw [if_pos hin]
      exact ⟨iff_of_false (by simp) (not_not_intro hin), fun _ => rfl⟩
    · rw [if_neg hin]
      exact ⟨iff_of_true rfl hin, fun h2 => absurd h2 hin⟩
  | WEST =>
    rw [get_neighbor_west, hrow, hcol]
    simp only [spec_offset, is_in_range_eq_one]
    by_cases hin : 0 ≤ r ∧ r < R ∧ 0 ≤ c - 1 ∧ c - 1 < C
    · rw [if_pos hin]
      exact ⟨iff_of_false (by simp) (not_not_intro hin), fun _ => rfl⟩
    · rw [if_neg hin]
      exact ⟨iff_of_true rfl hin, fun h2 => absurd h2 hin⟩
  | EAST =>
    rw [get_neighbor_east, hrow, hcol]
    simp only [spec_offset, is_in_range_eq_one]
    by_cases hin : 0 ≤ r ∧ r < R ∧ 0 ≤ c + 1 ∧ c + 1 < C
    · rw [if_pos hin]
      exact ⟨iff_of_false (by simp) (not_not_intro hin), fun _ => rfl⟩
    · rw [if_neg hin]
      exact ⟨iff_of_true rfl hin, fun h2 => absurd h2 hin⟩

/-- Witness for C1 at the 3×3 initialized grid, room (1,1), direction NORTH. -/
theorem get_neighbor_correct_witness :
    get_neighbor 3 3 grid3 (grid3 1 1) NORTH =
      some (grid3 (spec_offset 1 1 NORTH).1 (spec_offset 1 1 NORTH).2) :=
  (get_neighbor_correct 3 3 grid3 (initialize_maze_consistent 3 3 baseGrid) 1 1
      (by decide) (by decide) (by decide) (by decide) NORTH).2 (by decide)

/-- C2: for all integer inputs (including negative values and values far
outside range), `is_in_range` returns 1 (true) iff `0 <= row < num_rows` and
`0 <= col < num_cols`, and returns 0 (false) otherwise; it is a pure total
function with no error conditions. -/
theorem is_in_range_correct (row col num_rows num_cols : Int) :
    (is_in_range row col num_rows num_cols = 1 ↔
      0 ≤ row ∧ row < num_rows ∧ 0 ≤ col ∧ col < num_cols) ∧
    (is_in_range row col num_rows num_cols = 0 ↔
      ¬(0 ≤ row ∧ row < num_rows ∧ 0 ≤ col ∧ col < num_cols)) := by
  unfold is_in_range
  split <;> omega

/-- C3: for all dimensions `R, C ≥ 1`, after `initialize_maze R C` every
in-range cell `(i, j)` holds a room with `row = i`, `col = j`, all four wall
slots equal to the unset sentinel -1, and `visited = 0`. -/
theorem initialize_maze_cells (R C : Int) (g : Grid) (hR : 1 ≤ R) (hC : 1 ≤ C)
    (i j : Int) (hi0 : 0 ≤ i) (hiR : i < R) (hj0 : 0 ≤ j) (hjC : j < C) :
    initialize_maze R C g i j =
      { row := i, col := j, walls := (-1, -1, -1, -1), visited := 0 } := by
  have hcond : 0 ≤ i ∧ i < (R.toNat : Int) ∧ 0 ≤ j ∧ j < (C.toNat : Int) := by
    omega
  rw [initialize_maze_apply, if_pos hcond]
  rfl

/-- Witness for C3 on a 2×2 grid at cell (1,1). -/
theorem initialize_maze_cells_witness :
    initialize_maze 2 2 baseGrid 1 1 =
      { row := 1, col := 1, walls := (-1, -1, -1, -1), visited := 0 } :=
  initialize_maze_cells 2 2 baseGrid (by decide) (by decide) 1 1
    (by decide) (by decide) (by decide) (by decide)

/-- C4: on a grid that records its own positions, whenever `get_neighbor`
succeeds in a direction, looking up the inverse direction from the result
returns the original room (NORTH/SOUTH and WEST/EAST cancel). -/
theorem get_neighbor_round_trip (R C : Int) (maze : Grid)
    (hcons : rooms_consistent R C maze) (r c : Int)
    (hr0 : 0 ≤ r) (hrR : r < R) (hc0 : 0 ≤ c) (hcC : c < C) (dir : Direction)
    (room2 : maze_room)
    (h : get_neighbor R C maze (maze r c) dir = some room2) :
    get_neighbor R C maze room2 (spec_inverse dir) = some (maze r c) := by
  obtain ⟨hrow, hcol⟩ := hcons r c hr0 hrR hc0 hcC
  cases dir with
  | NORTH =>
    rw [get_neighbor_north, hrow, hcol] at h
    simp only [is_in_range_eq_one] at h
    by_cases hin : 0 ≤ r - 1 ∧ r - 1 < R ∧ 0 ≤ c ∧ c < C
    · rw [if_pos hin] at h
      injection h with h2
      subst h2
      obtain ⟨hrow2, hcol2⟩ := hcons (r - 1) c hin.1 hin.2.1 hc0 hcC
      simp only [spec_inverse]
      rw [get_neighbor_south, hrow2, hcol2]
      have he : r - 1 + 1 = r := by omega
      rw [he, if_pos ((is_in_range_eq_one r c R C).mpr ⟨hr0, hrR, hc0, hcC⟩)]
    · rw [if_neg hin] at h
      exact absurd h (by simp)
  | SOUTH =>
    rw [get_neighbor_south, hrow, hcol] at h
    simp only [is_in_range_eq_one] at h
    by_cases hin : 0 ≤ r + 1 ∧ r + 1 < R ∧ 0 ≤ c ∧ c < C
    · rw [if_pos hin] at h
      injection h with h2
      subst h2
      obtain ⟨hrow2, hcol2⟩ := hcons (r + 1) c hin.1 hin.2.1 hc0 hcC
      simp only [spec_inverse]
      rw [get_neighbor_north, hrow2, hcol2]
      have he : r + 1 - 1 = r := by omega
      rw [he, if_pos ((is_in_range_eq_one r c R C).mpr ⟨hr0, hrR, hc0, hcC⟩)]
    · rw [if_neg hin] at h
      exact absurd h (by simp)
  | WEST =>
    rw [get_neighbor_west, hrow, hcol] at h
    simp only [is_in_range_eq_one] at h
    by_cases hin : 0 ≤ r ∧ r < R ∧ 0 ≤ c - 1 ∧ c - 1 < C
    · rw [if_pos hin] at h
      injection h with h2
      subst h2
      obtain ⟨hrow2, hcol2⟩ := hcons r (c - 1) hr0 hrR hin.2.2.1 hin.2.2.2
      simp only [spec_inverse]
      rw [get_neighbor_east, hrow2, hcol2]
      have he : c - 1 + 1 = c := by omega
      rw [he, if_pos ((is_in_range_eq_one r c R C).mpr ⟨hr0, hrR, hc0, hcC⟩)]
    · rw [if_neg hin] at h
      exact absurd h (by simp)
  | EAST =>
    rw [get_neighbor_east, hrow, hcol] at h
    simp only [is_in_range_eq_one] at h
    by_cases hin : 0 ≤ r ∧ r < R ∧ 0 ≤ c + 1 ∧ c + 1 < C
    · rw [if_pos hin] at h
      injection h with h2
      subst h2
      obtain ⟨hrow2, hcol2⟩ := hcons r (c + 1) hr0 hrR hin.2.2.1 hin.2.2.2
      simp only [spec_inverse]
      rw [get_neighbor_west, hrow2, hcol2]
      have he : c + 1 - 1 = c := by omega
      rw [he, if_pos ((is_in_range_eq_one r c R C).mpr ⟨hr0, hrR, hc0, hcC⟩)]
    · rw [if_neg hin] at h
      exact absurd h (by simp)

/-- Witness for C4 on the 3×3 initialized grid: NORTH from (1,1) then its
inverse returns the original room. -/
theorem get_neighbor_round_trip_witness :
    get_neighbor 3 3 grid3 (grid3 0 1) (spec_inverse NORTH) = some (grid3 1 1) :=
  get_neighbor_round_trip 3 3 grid3 (initialize_maze_consistent 3 3 baseGrid)
    1 1 (by decide) (by decide) (by decide) (by decide) NORTH (grid3 0 1)
    (by decide)

/-- C5: on an initialized 3×3 grid, `get_neighbor` from room (1,1) returns
the rooms at (0,1), (2,1), (1,0), (1,2) for NORTH, SOUTH, WEST, EAST
respectively, and from room (0,0) returns `none` for NORTH and WEST. -/
theorem grid3_concrete_neighbors :
    get_neighbor 3 3 grid3 (grid3 1 1) NORTH = some (grid3 0 1) ∧
    get_neighbor 3 3 grid3 (grid3 1 1) SOUTH = some (grid3 2 1) ∧
    get_neighbor 3 3 grid3 (grid3 1 1) WEST = some (grid3 1 0) ∧
    get_neighbor 3 3 grid3 (grid3 1 1) EAST = some (grid3 1 2) ∧
    get_neighbor 3 3 grid3 (grid3 0 0) NORTH = none ∧
    get_neighbor 3 3 grid3 (grid3 0 0) WEST = none := by
  decide

/-- C6: on an initialized 1×1 grid, `get_neighbor` from the single room
(0,0) returns `none` for all four directions. -/
theorem grid1_concrete_neighbors :
    get_neighbor 1 1 grid1 (grid1 0 0) NORTH = none ∧
    get_neighbor 1 1 grid1 (grid1 0 0) SOUTH = none ∧
    get_neighbor 1 1 grid1 (grid1 0 0) WEST = none ∧
    get_neighbor 1 1 grid1 (grid1 0 0) EAST = none := by
  decide

/-- C7: `get_neighbor` has no side effects: in the state-passing rendering of
its body, every path returns the array and the input room unchanged, and its
result is that of the pure function. -/
theorem get_neighbor_no_side_effects (R C : Int) (maze : Grid)
    (room : maze_room) (dir : Direction) :
    (get_neighbor_st R C maze room dir).1 = maze ∧
    (get_neighbor_st R C maze room dir).2.1 = room ∧
    (get_neighbor_st R C maze room dir).2.2 = get_neighbor R C maze room dir := by
  cases dir <;> unfold get_neighbor_st get_neighbor <;> split_ifs <;>
    exact ⟨rfl, rfl, rfl⟩

/-- C8: every operation terminates unconditionally: `is_in_range` always
returns one of its two values, `get_neighbor` always returns a value, and
the literal fueled rendering of `initialize_maze`'s double loop reaches its
exit (fuel is never exhausted) for every pair of integer dimensions,
producing exactly `initialize_maze`'s result. -/
theorem operations_terminate (R C : Int) (g : Grid) (room : maze_room)
    (dir : Direction) (row col : Int) :
    (is_in_range row col R C = 0 ∨ is_in_range row col R C = 1) ∧
    ((get_neighbor R C g room dir).isNone ∨ (get_neighbor R C g room dir).isSome) ∧
    (∃ fuel : Nat, init_outer_loop R C 0 g fuel = some (initialize_maze R C g)) := by
  refine ⟨?_, ?_, ?_⟩
  · unfold is_in_range
    split
    · exact Or.inl rfl
    · exact Or.inr rfl
  · rcases get_neighbor R C g room dir with _ | r2
    · exact Or.inl rfl
    · exact Or.inr rfl
  · obtain ⟨g2, hg2, hpt⟩ := init_outer_loop_sound R C (R.toNat + 1) 0 g (by omega)
    refine ⟨R.toNat + 1, ?_⟩
    rw [hg2]
    congr 1
    funext r c
    rw [hpt r c, initialize_maze_apply]
    by_cases hc : 0 ≤ r ∧ r < R ∧ 0 ≤ c ∧ c < C
    · rw [if_pos hc, if_pos (by omega)]
    · rw [if_neg hc, if_neg (by omega)]

/-- C9: when `num_rows ≤ 0` or `num_cols ≤ 0`, the loop bodies of
`initialize_maze` never execute and the caller's grid storage is left
completely unchanged. -/
theorem initialize_maze_degenerate (R C : Int) (g : Grid)
    (h : R ≤ 0 ∨ C ≤ 0) : initialize_maze R C g = g := by
  funext r c
  rw [initialize_maze_apply, if_neg (by omega)]

/-- Witness for C9 at dimensions 0×5. -/
theorem initialize_maze_degenerate_witness :
    initialize_maze 0 5 baseGrid = baseGrid :=
  initialize_maze_degenerate 0 5 baseGrid (Or.inl (by decide))

/-- C10: `initialize_maze` is idempotent: re-initializing an
already-initialized grid with the same dimensions yields the identical
grid. -/
theorem initialize_maze_idempotent (R C : Int) (g : Grid) :
    initialize_maze R C (initialize_maze R C g) = initialize_maze R C g := by
  funext r c
  by_cases hc : 0 ≤ r ∧ r < (R.toNat : Int) ∧ 0 ≤ c ∧ c < (C.toNat : Int)
  · rw [initialize_maze_apply, if_pos hc, initialize_maze_apply, if_pos hc]
  · rw [initialize_maze_apply, if_neg hc]
